import Mathlib

/-!
BoltGuard policy-evaluation engine: a shallow embedding.

This file embeds the core of the BoltGuard container-policy engine in Lean 4
and proves properties of it: the policy / rule / facts data model
(`internal/policy`, `internal/facts`), the per-kind evaluators and the
evaluation orchestrator (`internal/rules`), and the report aggregation and
narrative rendering (`internal/report`).

Conventions of the embedding:
* Go machine integers (`int`, `int64`) are modelled as `Int`; image sizes and
  layer counts therefore live in `Int`.
* Go `map[string]T` values built by the code from YAML documents are modelled
  as association lists `List (String × T)`; the Go map built by
  `CountBySeverity` (insert-or-increment) is modelled by the same structure.
* Go errors are `Except String`; `err.Error()` is the carried string.
* `regexp.Compile` / `MatchString` come from Go's standard library, outside
  this repository; they are modelled by an explicit compile function
  `RegexCompile := String → Except String (String → Bool)` passed to the code
  that uses it.  All theorems quantify over it or fix a concrete matcher.
* Go string helpers that Lean's `String` implements by byte-position
  recursion (which the kernel cannot evaluate) are re-implemented over the
  character list: `strToLower`, `strToUpper`, `hasPrefixB`, `envKey`.
  They agree with Go's ASCII behaviour, which is all the engine relies on.
-/

namespace Boltguard

/-- One YAML value inside a rule's free-form `config` bag, as Go's
`yaml.v3` unmarshals `interface{}`: strings, booleans, integers (`int` or
`int64`), floating-point numbers, sequences, `nil`, or anything else.
A `float64` only ever flows into `GetConfigInt`, which applies Go's
truncating `int(·)` conversion; we carry the float as its truncated
integer part `ip` together with a flag `exact` recording whether the
fractional part was zero (the flag is never consulted by the code below,
it only keeps distinct floats distinct). -/
inductive YamlVal where
  | yStr (s : String)
  | yBool (b : Bool)
  | yInt (n : Int)
  | yInt64 (n : Int)
  | yFloat (ip : Int) (exact : Bool)
  | yStrList (xs : List String)
  | yList (xs : List YamlVal)
  | yNull

/-- Global policy settings (`fail_on_error`, `min_severity`). -/
structure Settings where
  FailOnError : Bool := false
  MinSeverity : String := ""

/-- One policy entry: id, display name, description, severity, kind,
free-form config bag, and the `fail_fast` flag.  `Config = none` models a
Go `nil` map. -/
structure Rule where
  ID : String := ""
  Name : String := ""
  Description : String := ""
  Severity : String := ""
  Kind : String := ""
  Config : Option (List (String × YamlVal)) := none
  FailFast : Bool := false

/-- A complete policy document. -/
structure Policy where
  Name : String := ""
  Description : String := ""
  Version : String := ""
  Settings : Settings := {}
  Rules : List Rule := []

/-- The outcome of evaluating a single rule (`rules.Result`). -/
structure Result where
  RuleID : String := ""
  RuleName : String := ""
  Severity : String := ""
  Passed : Bool := false
  Message : String := ""
  Description : String := ""
deriving DecidableEq

/-- One layer descriptor inside `Facts`. -/
structure LayerFact where
  Digest : String := ""
  Size : Int := 0
  CreatedBy : String := ""

/-- Everything extracted from an image that policies care about
(`facts.Facts`).  `Created` (a `time.Time`) is modelled as its Unix
nanosecond count; the engine never reads it. -/
structure Facts where
  BaseImage : String := ""
  Size : Int := 0
  Created : Int := 0
  Architecture : String := ""
  OS : String := ""
  User : String := ""
  RunsAsRoot : Bool := false
  HasSetuidBit : Bool := false
  Labels : List (String × String) := []
  Env : List String := []
  ExposedPorts : List String := []
  Entrypoint : List String := []
  Cmd : List String := []
  WorkingDir : String := ""
  LayerCount : Int := 0
  Layers : List LayerFact := []

/-- Association-list lookup, as Go's `val, ok := m[key]`. -/
def lookupVal : List (String × YamlVal) → String → Option YamlVal
  | [], _ => none
  | (k, v) :: rest, key => if k = key then some v else lookupVal rest key

/-- Embeds `Rule.GetConfigString`: a present non-string value yields `""`
(Go's `str, _ := val.(string)`). -/
def Rule.GetConfigString (r : Rule) (key : String) : String :=
  match r.Config with
  | none => ""
  | some m =>
    match lookupVal m key with
    | none => ""
    | some v =>
      match v with
      | .yStr s => s
      | _ => ""

/-- Embeds `Rule.GetConfigInt`: accepts `int`, `int64` and `float64` (the latter
via Go's truncating `int(·)`); anything else yields `0`. -/
def Rule.GetConfigInt (r : Rule) (key : String) : Int :=
  match r.Config with
  | none => 0
  | some m =>
    match lookupVal m key with
    | none => 0
    | some v =>
      match v with
      | .yInt n => n
      | .yInt64 n => n
      | .yFloat ip _ => ip
      | _ => 0

/-- Embeds `Rule.GetConfigBool`: a present non-boolean value yields `false`
(Go's `b, _ := val.(bool)`). -/
def Rule.GetConfigBool (r : Rule) (key : String) : Bool :=
  match r.Config with
  | none => false
  | some m =>
    match lookupVal m key with
    | none => false
    | some v =>
      match v with
      | .yBool b => b
      | _ => false

/-- Embeds `Rule.GetConfigStringSlice`: accepts `[]string` as-is and
`[]interface{}` keeping only the string elements; anything else yields
the empty slice. -/
def Rule.GetConfigStringSlice (r : Rule) (key : String) : List String :=
  match r.Config with
  | none => []
  | some m =>
    match lookupVal m key with
    | none => []
    | some v =>
      match v with
      | .yStrList xs => xs
      | .yList xs =>
        xs.filterMap fun item =>
          match item with
          | .yStr s => some s
          | _ => none
      | _ => []

/-- Embeds `Facts.HasLabel`: key presence in the label map. -/
def Facts.HasLabel (f : Facts) (key : String) : Bool :=
  f.Labels.any fun kv => kv.1 == key

/-- Embeds `Facts.GetLabel`: map read, `""` for a missing key. -/
def Facts.GetLabel (f : Facts) (key : String) : String :=
  match f.Labels.find? (fun kv => kv.1 == key) with
  | some kv => kv.2
  | none => ""

/-- The severity switch inside `Policy.Validate`. -/
def validSeverity (s : String) : Bool :=
  s == "critical" || s == "high" || s == "medium" || s == "low" || s == "info"

/-- The per-rule loop of `Policy.Validate`, carrying the loop index `i`
used in the `"rule %d missing ID"` message. -/
def validateRules : Nat → List Rule → Except String Unit
  | _, [] => .ok ()
  | i, rule :: rest =>
    if rule.ID = "" then .error ("rule " ++ toString i ++ " missing ID")
    else if rule.Name = "" then .error ("rule " ++ rule.ID ++ " missing name")
    else if rule.Kind = "" then .error ("rule " ++ rule.ID ++ " missing kind")
    else if validSeverity rule.Severity then validateRules (i + 1) rest
    else .error ("rule " ++ rule.ID ++ " has invalid severity: " ++ rule.Severity)

/-- Embeds `Policy.Validate` checks, short-circuiting: name present, at least one
rule, and per rule (in order) id, name, kind, and an enumerated severity. -/
def Policy.Validate (p : Policy) : Except String Unit :=
  if p.Name = "" then .error "policy must have a name"
  else if p.Rules.length = 0 then .error "policy must have at least one rule"
  else validateRules 0 p.Rules

/-- Embeds `policy.LoadFromFile` after the I/O steps: reading the file and
`yaml.Unmarshal` are external (os / yaml.v3), modelled by the `parsed`
argument — `.error e` for a read or parse failure (`e` the wrapped
message), `.ok p` for the document that was unmarshalled.  The function
then validates and wraps a validation failure in `"invalid policy: "`. -/
def LoadFromFile (parsed : Except String Policy) : Except String Policy := do
  let p ← parsed
  match p.Validate with
  | .error e => .error ("invalid policy: " ++ e)
  | .ok _ => pure p

/-- Embeds `policy.LoadDefault` after the I/O steps: reading the embedded file
and `yaml.Unmarshal` are modelled by the `parsed` argument, exactly as in
`LoadFromFile`.  The source returns the unmarshalled document directly —
it never calls `Validate`. -/
def LoadDefault (parsed : Except String Policy) : Except String Policy :=
  parsed

/-- Embeds `strings.ToLower` over the character sequence (ASCII, which is all the
base-image evaluator compares). -/
def strToLower (s : String) : String :=
  ⟨s.data.map Char.toLower⟩

/-- Embeds `strings.ToUpper` over the character sequence (applied by the text
renderer to the lowercase severity names). -/
def strToUpper (s : String) : String :=
  ⟨s.data.map Char.toUpper⟩

/-- Embeds `strings.HasPrefix s pre` over the character sequence. -/
def hasPrefixB (s pre : String) : Bool :=
  pre.data.isPrefixOf s.data

/-- Embeds `strings.SplitN(env, "=", 2)[0]`: the text before the first `'='`
(the whole string when there is no `'='`). -/
def envKey (env : String) : String :=
  ⟨env.data.takeWhile (fun c => c != '=')⟩

/-- The text after the first `'='` of an env entry
(`strings.SplitN(env, "=", 2)[1]`); `""` when there is no `'='`. -/
def envValue (env : String) : String :=
  ⟨(env.data.dropWhile (fun c => c != '=')).drop 1⟩

/-- Embeds `strings.Join` (also the effect of `String.intercalate`). -/
def strJoin (sep : String) : List String → String
  | [] => ""
  | [a] => a
  | a :: b :: rest => a ++ sep ++ strJoin sep (b :: rest)

/-- Substring occurrence: `sub` occurs contiguously inside `s`.  This is
the reading of "the message contains …" used throughout. -/
def strContains (s sub : String) : Prop :=
  sub.data <:+: s.data

instance (s sub : String) : Decidable (strContains s sub) :=
  List.decidableInfix sub.data s.data

/-- Boolean contiguous-occurrence test on character lists, used to build
concrete matchers standing in for compiled regular expressions (a literal
pattern such as `PASSWORD` matches exactly the strings containing it). -/
def listInfixB (sub : List Char) (l : List Char) : Bool :=
  match l with
  | [] => sub.isEmpty
  | _ :: rest => sub.isPrefixOf l || listInfixB sub rest

/-- Go's `regexp.Compile` followed by `MatchString`, abstracted: a compile
function takes the pattern and either fails with `err.Error()` or returns
the compiled matcher. -/
def RegexCompile : Type :=
  String → Except String (String → Bool)

/-- An evaluator's `Evaluate` method: `(*Facts, *Rule) → (*Result, error)`. -/
def EvalFn : Type :=
  Facts → Rule → Except String Result

/-- Embeds `UserEvaluator.Evaluate`: fail when the image runs as root and
`allow_root` is not set. -/
def UserEvaluator.Evaluate (f : Facts) (r : Rule) : Except String Result :=
  let allowRoot := r.GetConfigBool "allow_root"
  if f.RunsAsRoot && !allowRoot then
    .ok { Passed := false, Message := "image runs as root (user=" ++ f.User ++ ")" }
  else
    .ok { Passed := true, Message := "runs as user: " ++ f.User }

/-- Embeds `int(f.SizeMB())`: the image size in whole megabytes as the size
evaluator computes it.  `Facts.SizeMB` returns `float64(Size)/(1024*1024)`
and the evaluator truncates it with Go's `int(·)` conversion; division by
`2^20` only shifts the float's exponent, so for `|Size| < 2^53` (any real
image) the composite is exactly the integer quotient truncated toward
zero, which is what we embed. -/
def intSizeMB (f : Facts) : Int :=
  f.Size.tdiv (1024 * 1024)

/-- Embeds `SizeEvaluator.Evaluate`: hard `max_mb` / soft `warn_mb` thresholds
over the truncated whole-MB size. -/
def SizeEvaluator.Evaluate (f : Facts) (r : Rule) : Except String Result :=
  let maxMB := r.GetConfigInt "max_mb"
  let warnMB := r.GetConfigInt "warn_mb"
  let sizeMB := intSizeMB f
  if maxMB > 0 ∧ sizeMB > maxMB then
    .ok { Passed := false
          Message := "image size " ++ toString sizeMB ++ "MB exceeds maximum "
            ++ toString maxMB ++ "MB" }
  else if warnMB > 0 ∧ sizeMB > warnMB then
    .ok { Passed := true
          Message := "image size " ++ toString sizeMB ++ "MB exceeds warning threshold "
            ++ toString warnMB ++ "MB" }
  else
    .ok { Passed := true, Message := "image size: " ++ toString sizeMB ++ "MB" }

/-- Embeds `LabelEvaluator.Evaluate`: every `required` label must be present;
the failure message lists the missing keys comma-joined in order. -/
def LabelEvaluator.Evaluate (f : Facts) (r : Rule) : Except String Result :=
  let required := r.GetConfigStringSlice "required"
  let missing := required.filter fun label => !(f.HasLabel label)
  if missing.length > 0 then
    .ok { Passed := false
          Message := "missing required labels: " ++ strJoin ", " missing }
  else
    .ok { Passed := true
          Message := "all required labels present (" ++ toString f.Labels.length
            ++ " total labels)" }

/-- The violation string the env evaluator records for a matching entry. -/
def envViolation (env pattern : String) : String :=
  "env var " ++ envKey env ++ " matches pattern " ++ pattern

/-- The pattern loop of `EnvEvaluator.Evaluate`: compile each deny pattern
in order (a compile failure aborts the whole evaluation with an error),
then scan every raw env entry, recording a violation naming the entry's
key and the pattern for each match. -/
def envCollect (rc : RegexCompile) (envs : List String) :
    List String → Except String (List String)
  | [] => .ok []
  | pattern :: rest =>
    match rc pattern with
    | .error e => .error ("invalid regex pattern " ++ pattern ++ ": " ++ e)
    | .ok re => do
      let vs := (envs.filter fun env => re env).map fun env => envViolation env pattern
      let vrest ← envCollect rc envs rest
      pure (vs ++ vrest)

/-- Embeds `EnvEvaluator.Evaluate`: fail when any deny pattern matches any raw
env entry; the message joins the recorded violations with `"; "`. -/
def EnvEvaluator.Evaluate (rc : RegexCompile) (f : Facts) (r : Rule) :
    Except String Result := do
  let denyPatterns := r.GetConfigStringSlice "deny_patterns"
  let violations ← envCollect rc f.Env denyPatterns
  if violations.length > 0 then
    pure { Passed := false
           Message := "found suspicious env vars: " ++ strJoin "; " violations }
  else
    pure { Passed := true
           Message := "no suspicious env vars detected (" ++ toString f.Env.length
             ++ " total)" }

/-- Embeds `BaseEvaluator.Evaluate`: allowlist of case-insensitive base-image
prefixes, with `allow_unknown` soft modes. -/
def BaseEvaluator.Evaluate (f : Facts) (r : Rule) : Except String Result :=
  let allowedPrefixes := r.GetConfigStringSlice "allowed_prefixes"
  let allowUnknown := r.GetConfigBool "allow_unknown"
  if f.BaseImage = "" ∨ f.BaseImage = "unknown" then
    if allowUnknown then
      .ok { Passed := true, Message := "base image unknown (allowed by policy)" }
    else
      .ok { Passed := false, Message := "could not determine base image" }
  else if allowedPrefixes.any (fun prefix_ =>
      hasPrefixB (strToLower f.BaseImage) (strToLower prefix_)) then
    .ok { Passed := true, Message := "base image: " ++ f.BaseImage }
  else if allowUnknown then
    .ok { Passed := true
          Message := "base image " ++ f.BaseImage ++ " not in recommended list" }
  else
    .ok { Passed := false, Message := "base image " ++ f.BaseImage ++ " not allowed" }

/-- Embeds `LayersEvaluator.Evaluate`: hard `max_layers` / soft `warn_layers`
thresholds over the layer count. -/
def LayersEvaluator.Evaluate (f : Facts) (r : Rule) : Except String Result :=
  let maxLayers := r.GetConfigInt "max_layers"
  let warnLayers := r.GetConfigInt "warn_layers"
  let count := f.LayerCount
  if maxLayers > 0 ∧ count > maxLayers then
    .ok { Passed := false
          Message := "layer count " ++ toString count ++ " exceeds maximum "
            ++ toString maxLayers }
  else if warnLayers > 0 ∧ count > warnLayers then
    .ok { Passed := true
          Message := "layer count " ++ toString count ++ " exceeds warning threshold "
            ++ toString warnLayers }
  else
    .ok { Passed := true, Message := "layer count: " ++ toString count }

/-- The rules engine: its registry `evaluators` maps a kind string to the
registered evaluator, `none` when the kind is unregistered. -/
structure Engine where
  evaluators : String → Option EvalFn

/-- Embeds `Engine.Register`: add (or overwrite) a kind→evaluator binding. -/
def Engine.Register (e : Engine) (kind : String) (eval : EvalFn) : Engine :=
  ⟨fun k => if k = kind then some eval else e.evaluators k⟩

/-- Embeds `NewEngine`: the engine with the six built-in evaluators registered.
The env evaluator closes over the ambient `regexp` library, modelled by
the explicit `rc`. -/
def NewEngine (rc : RegexCompile) : Engine :=
  ((((((⟨fun _ => none⟩ : Engine).Register
    "user" UserEvaluator.Evaluate).Register
    "size" SizeEvaluator.Evaluate).Register
    "label" LabelEvaluator.Evaluate).Register
    "env" (EnvEvaluator.Evaluate rc)).Register
    "base" BaseEvaluator.Evaluate).Register
    "layers" LayersEvaluator.Evaluate

/-- The body of `Engine.Evaluate`'s loop for one rule: look the kind up
(synthesizing a failing Result naming an unknown kind), invoke the
evaluator (synthesizing a failing Result embedding an error), and
otherwise overwrite the evaluator's Result with the rule's metadata.
Each loop iteration appends exactly the Result this returns. -/
def Engine.evalRule (e : Engine) (f : Facts) (rule : Rule) : Result :=
  match e.evaluators rule.Kind with
  | none =>
    { RuleID := rule.ID
      RuleName := rule.Name
      Severity := rule.Severity
      Passed := false
      Message := "unknown rule kind: " ++ rule.Kind
      Description := "" }
  | some evaluator =>
    match evaluator f rule with
    | .error err =>
      { RuleID := rule.ID
        RuleName := rule.Name
        Severity := rule.Severity
        Passed := false
        Message := "evaluation error: " ++ err
        Description := "" }
    | .ok result =>
      { result with
        RuleID := rule.ID
        RuleName := rule.Name
        Severity := rule.Severity
        Description := rule.Description }

/-- Embeds `Engine.Evaluate`: run all policy rules against the facts, appending
one Result per rule to the accumulated slice. -/
def Engine.Evaluate (e : Engine) (f : Facts) (p : Policy) : List Result :=
  p.Rules.foldl (fun results rule => results ++ [e.evalRule f rule]) []

/-- Embeds `Engine.Evaluate` invoked when the ambient wall clock reads `now`.
The source never reads the clock (or any other mutable state) during
evaluation, so the embedding ignores `now`; the wrapper exists to state
that the Results are independent of when the evaluation runs. -/
def Engine.EvaluateAtTime (e : Engine) (_now : Int) (f : Facts) (p : Policy) :
    List Result :=
  e.Evaluate f p

/-- Embeds `CountFailures`: the number of failed checks. -/
def CountFailures (results : List Result) : Nat :=
  results.foldl (fun count r => if r.Passed then count else count + 1) 0

/-- The insert-or-increment step of `counts[r.Severity]++` on a Go map,
modelled on the association list: increment the existing entry, or append
a fresh entry at 1. -/
def mapIncr : List (String × Nat) → String → List (String × Nat)
  | [], key => [(key, 1)]
  | (k, v) :: rest, key =>
    if k = key then (k, v + 1) :: rest else (k, v) :: mapIncr rest key

/-- Go map read with the zero default: `m[k]` is `0` for a missing key. -/
def mapGet : List (String × Nat) → String → Nat
  | [], _ => 0
  | (k, v) :: rest, key => if k = key then v else mapGet rest key

/-- Go map key presence. -/
def mapHasKey : List (String × Nat) → String → Bool
  | [], _ => false
  | (k, _) :: rest, key => k == key || mapHasKey rest key

/-- The five severities `CountBySeverity` zero-initializes. -/
def fiveSeverities : List String :=
  ["critical", "high", "medium", "low", "info"]

/-- Embeds `CountBySeverity`: failures grouped by severity, over a map
zero-initialized with the five severities. -/
def CountBySeverity (results : List Result) : List (String × Nat) :=
  results.foldl
    (fun counts r => if r.Passed then counts else mapIncr counts r.Severity)
    [("critical", 0), ("high", 0), ("medium", 0), ("low", 0), ("info", 0)]

/-- Embeds `HasCriticalFailures`: some failed Result has severity critical. -/
def HasCriticalFailures (results : List Result) : Bool :=
  results.any fun r => !r.Passed && r.Severity == "critical"

/-- Embeds `report.Report`: the aggregate handed to the renderers.  `Timestamp`
(a `time.Time` read from `time.Now()` and only ever formatted with
RFC 3339) is modelled as its formatted string. -/
structure Report where
  ImageName : String := ""
  Facts : Boltguard.Facts := {}
  Results : List Result := []
  Policy : Policy := {}
  Timestamp : String := ""
  TotalRules : Nat := 0
  Passed : Nat := 0
  Failed : Nat := 0
  BySeverity : List (String × Nat) := []

/-- Embeds `report.New`: build a Report, computing the aggregate counts once.
`time.Now()` is external; the wall-clock value it returns is the `now`
argument. -/
def Report.New (imageName : String) (f : Boltguard.Facts) (results : List Result)
    (p : Boltguard.Policy) (now : String) : Report :=
  { ImageName := imageName
    Facts := f
    Results := results
    Policy := p
    Timestamp := now
    TotalRules := results.length
    BySeverity := CountBySeverity results
    Passed := results.countP (fun res => res.Passed)
    Failed := results.countP (fun res => !res.Passed) }

/-- The "Failures by severity" block of `Report.Text` (printed only when
`Failed > 0`): one aligned line per severity among critical, high,
medium, low whose count is positive, then a blank line. -/
def Report.severityBreakdown (r : Report) : String :=
  "Failures by severity:\n"
    ++ (if mapGet r.BySeverity "critical" > 0 then
          "  Critical: " ++ toString (mapGet r.BySeverity "critical") ++ "\n" else "")
    ++ (if mapGet r.BySeverity "high" > 0 then
          "  High:     " ++ toString (mapGet r.BySeverity "high") ++ "\n" else "")
    ++ (if mapGet r.BySeverity "medium" > 0 then
          "  Medium:   " ++ toString (mapGet r.BySeverity "medium") ++ "\n" else "")
    ++ (if mapGet r.BySeverity "low" > 0 then
          "  Low:      " ++ toString (mapGet r.BySeverity "low") ++ "\n" else "")
    ++ "\n"

/-- The "Failures" block of `Report.Text`: every failing Result in order,
with id, severity, message and the optional description detail. -/
def Report.failuresSection (r : Report) : String :=
  "Failures\n--------\n"
    ++ String.join ((r.Results.filter fun res => !res.Passed).map fun res =>
        "[" ++ strToUpper res.Severity ++ "] " ++ res.RuleName ++ "\n"
          ++ "  ID:      " ++ res.RuleID ++ "\n"
          ++ "  Message: " ++ res.Message ++ "\n"
          ++ (if res.Description ≠ "" then "  Detail:  " ++ res.Description ++ "\n" else "")
          ++ "\n")

/-- The "Passed Checks" block of `Report.Text`: every passing Result in
order, name and message only, then a blank line. -/
def Report.passedSection (r : Report) : String :=
  "Passed Checks\n-------------\n"
    ++ String.join ((r.Results.filter fun res => res.Passed).map fun res =>
        "✓ " ++ res.RuleName ++ ": " ++ res.Message ++ "\n")
    ++ "\n"

/-- Embeds `Report.Text`: the narrative rendering — header, summary counts,
severity breakdown (when something failed), failing rules, passing rules,
final verdict. -/
def Report.Text (r : Report) : String :=
  "BoltGuard Report\n" ++ "================\n\n"
    ++ "Image:    " ++ r.ImageName ++ "\n"
    ++ "Policy:   " ++ r.Policy.Name ++ " (v" ++ r.Policy.Version ++ ")\n"
    ++ "Scanned:  " ++ r.Timestamp ++ "\n\n"
    ++ "Summary\n" ++ "-------\n"
    ++ "Total checks: " ++ toString r.TotalRules ++ "\n"
    ++ "  Passed:     " ++ toString r.Passed ++ "\n"
    ++ "  Failed:     " ++ toString r.Failed ++ "\n\n"
    ++ (if r.Failed > 0 then r.severityBreakdown else "")
    ++ (if r.Failed > 0 then r.failuresSection else "")
    ++ (if r.Passed > 0 then r.passedSection else "")
    ++ (if r.Failed = 0 then "✓ All checks passed\n"
        else "✗ " ++ toString r.Failed ++ " check(s) failed\n")

/-! Concrete instances used to exercise the definitions.

A few named facts, rules and matchers used by the concrete theorems
below.  The matchers are honest models of Go's `regexp` on the specific
patterns involved: a literal pattern matches exactly the strings
containing it, `(?i)` makes the match case-insensitive, and an
unparseable pattern fails to compile. -/

/-- A compile function for a run in which every pattern fails to compile
(also used where the env evaluator is never exercised). -/
def rcErr : RegexCompile :=
  fun _ => .error "regex unavailable"

/-- Go's `regexp` restricted to literal patterns: pattern `p` matches the
strings that contain `p`. -/
def rcLit : RegexCompile :=
  fun p => .ok fun s => listInfixB p.data s.data

/-- Go's `regexp` on the single pattern `(?i)password`: matches the
strings containing `password` case-insensitively. -/
def rcPwd : RegexCompile :=
  fun p =>
    if p = "(?i)password" then
      .ok fun s => listInfixB "password".data (strToLower s).data
    else .error "unsupported pattern"

/-- A rule whose kind no evaluator is registered for. -/
def ruleUnknown : Rule :=
  { ID := "r1", Name := "unknown-kind rule", Severity := "high"
    Kind := "totally-made-up", Description := "has a description" }

/-- A one-rule policy exercising the unknown-kind path. -/
def policyUnknown : Policy :=
  { Name := "p", Version := "1", Rules := [ruleUnknown] }

/-- An env rule whose only deny pattern fails to compile under `rcErr`. -/
def ruleBadEnv : Rule :=
  { ID := "r2", Name := "env rule", Severity := "low", Kind := "env"
    Config := some [("deny_patterns", .yStrList ["("])] }

/-- An env rule denying the pattern `(?i)password`. -/
def rulePwd : Rule :=
  { ID := "r3", Name := "no password env", Severity := "critical", Kind := "env"
    Config := some [("deny_patterns", .yStrList ["(?i)password"])] }

/-- Facts with one env entry whose key triggers `(?i)password`. -/
def factsPwd : Facts :=
  { Env := ["DB_PASSWORD=hunter2"] }

/-- An env rule denying the literal pattern `PASSWORD`. -/
def rulePP : Rule :=
  { ID := "r4", Name := "literal password", Severity := "high", Kind := "env"
    Config := some [("deny_patterns", .yStrList ["PASSWORD"])] }

/-- Facts whose single env entry has its value equal to its key. -/
def factsPP : Facts :=
  { Env := ["PASSWORD=PASSWORD"] }

/-- A two-rule policy: an unknown-kind rule followed by an env rule whose
deny pattern cannot compile. -/
def policyTwo : Policy :=
  { Name := "p2", Version := "1", Rules := [ruleUnknown, ruleBadEnv] }

/-- A 2100-MB image (2100 · 2^20 bytes). -/
def factsBig : Facts :=
  { Size := 2202009600 }

/-- A size rule with `max_mb: 2048`. -/
def ruleSize2048 : Rule :=
  { ID := "r5", Name := "size cap", Severity := "medium", Kind := "size"
    Config := some [("max_mb", .yInt 2048)] }

/-- An image of 2^21 + 2^20 − 1 bytes: 2.99999… MB, which truncates to
2 MB but rounds to 3 MB. -/
def factsAlmost3MB : Facts :=
  { Size := 3145727 }

/-- A size rule with `max_mb: 2`. -/
def ruleSize2 : Rule :=
  { ID := "r6", Name := "tiny size cap", Severity := "medium", Kind := "size"
    Config := some [("max_mb", .yInt 2)] }

/-- A structurally invalid policy document (no name, no rules), standing
for what `yaml.Unmarshal` produces on e.g. an empty document. -/
def badPolicy : Policy :=
  { Name := "", Rules := [] }

/-- A well-formed one-rule policy. -/
def goodPolicy : Policy :=
  { Name := "g", Version := "1", Rules := [ruleUnknown] }

/-- The compiled matcher of `(?i)password` (the pattern argument is
ignored; the matcher itself is the same for every pattern a run compiles
it from): matches the strings containing `password` case-insensitively. -/
def ciPwdMatch : String → String → Bool :=
  fun _ s => listInfixB "password".data (strToLower s).data

/-- A single failing Result of severity `info`. -/
def infoFailResult : Result :=
  { RuleID := "r7", RuleName := "info rule", Severity := "info"
    Passed := false, Message := "informational failure" }

/-- A report over exactly one failing info-severity Result. -/
def infoFailReport : Report :=
  Report.New "img" {} [infoFailResult] { Name := "p", Version := "1" }
    "2024-01-01T00:00:00Z"

/-- A single failing Result of severity `critical`. -/
def critFailResult : Result :=
  { RuleID := "r9", RuleName := "crit rule", Severity := "critical"
    Passed := false, Message := "critical failure" }

/-- A report over exactly one failing critical-severity Result. -/
def critFailReport : Report :=
  Report.New "img" {} [critFailResult] { Name := "p", Version := "1" }
    "2024-01-01T00:00:00Z"

/-- The aligned label the text renderer prints for each severity in the
breakdown block. -/
def breakdownLabel (s : String) : String :=
  if s = "critical" then "  Critical: "
  else if s = "high" then "  High:     "
  else if s = "medium" then "  Medium:   "
  else "  Low:      "

/-- A rule whose config holds a wrongly-typed value under each key. -/
def ruleMixedConfig : Rule :=
  { ID := "r8", Name := "cfg", Severity := "info", Kind := "user"
    Config := some
      [("flag", .yStr "true"), ("num", .yStr "12"), ("name", .yInt 3),
       ("list", .yList [.yStr "a", .yInt 1, .yStr "b"])] }

/-- The image size rounded to the nearest whole MB, halves upward.
Modelled from the spec's words ("size always rounded to whole MB for
comparison and display"); written on integers:
`round(size / 2^20) = ⌊(size + 2^19) / 2^20⌋`. -/
def specRoundedMB (size : Int) : Int :=
  (size + 524288).fdiv 1048576

/-! Helper lemmas. -/

theorem foldl_append_singleton {α β : Type} (g : α → β) (l : List α)
    (acc : List β) :
    l.foldl (fun a x => a ++ [g x]) acc = acc ++ l.map g := by
  induction l generalizing acc with
  | nil => simp
  | cons x xs ih => simp [ih]

/-- The evaluation loop appends exactly one Result per rule, so the result
slice is the image of the rule list under the loop body. -/
theorem Engine.Evaluate_eq_map (e : Engine) (f : Facts) (p : Policy) :
    e.Evaluate f p = p.Rules.map (e.evalRule f) := by
  simpa using foldl_append_singleton (e.evalRule f) p.Rules []

theorem mapGet_mapIncr_self (m : List (String × Nat)) (key : String) :
    mapGet (mapIncr m key) key = mapGet m key + 1 := by
  induction m with
  | nil => simp [mapIncr, mapGet]
  | cons kv rest ih =>
    obtain ⟨k, v⟩ := kv
    by_cases h : k = key <;> simp [mapIncr, mapGet, h, ih]

theorem mapGet_mapIncr_other (m : List (String × Nat)) (key other : String)
    (h : other ≠ key) :
    mapGet (mapIncr m key) other = mapGet m other := by
  induction m with
  | nil => simp [mapIncr, mapGet, Ne.symm h]
  | cons kv rest ih =>
    obtain ⟨k, v⟩ := kv
    by_cases hk : k = key
    · subst hk
      simp [mapIncr, mapGet, Ne.symm h]
    · simp [mapIncr, mapGet, hk, ih]

theorem mapHasKey_mapIncr (m : List (String × Nat)) (key other : String)
    (h : mapHasKey m key = true) :
    mapHasKey (mapIncr m other) key = true := by
  induction m with
  | nil => simp [mapHasKey] at h
  | cons kv rest ih =>
    obtain ⟨k, v⟩ := kv
    simp [mapHasKey] at h
    by_cases hk : k = other
    · subst hk
      simpa [mapIncr, mapHasKey] using h
    · rcases h with h | h
      · subst h
        simp [mapIncr, mapHasKey, hk]
      · simp [mapIncr, mapHasKey, hk, ih h]

/-- The severity-count invariant of the `CountBySeverity` fold: each key's
value grows by the number of failed results carrying that severity. -/
theorem countBySeverity_loop (l : List Result) (m : List (String × Nat))
    (s : String) :
    mapGet (l.foldl
        (fun counts r => if r.Passed then counts else mapIncr counts r.Severity) m) s
      = mapGet m s + l.countP (fun r => !r.Passed && r.Severity == s) := by
  induction l generalizing m with
  | nil => simp
  | cons r rest ih =>
    by_cases hp : r.Passed
    · simp [List.countP_cons, hp, ih]
    · by_cases hs : r.Severity = s
      · subst hs
        simp [List.countP_cons, hp, ih, mapGet_mapIncr_self]
        omega
      · simp [List.countP_cons, hp, hs, ih,
          mapGet_mapIncr_other _ _ _ (Ne.symm hs)]

theorem countBySeverity_get (results : List Result) (s : String) :
    mapGet (CountBySeverity results) s
      = results.countP (fun r => !r.Passed && r.Severity == s) := by
  have h := countBySeverity_loop results
    [("critical", 0), ("high", 0), ("medium", 0), ("low", 0), ("info", 0)] s
  by_cases h1 : s = "critical"
  · subst h1; simpa [CountBySeverity, mapGet] using h
  by_cases h2 : s = "high"
  · subst h2; simpa [CountBySeverity, mapGet] using h
  by_cases h3 : s = "medium"
  · subst h3; simpa [CountBySeverity, mapGet] using h
  by_cases h4 : s = "low"
  · subst h4; simpa [CountBySeverity, mapGet] using h
  by_cases h5 : s = "info"
  · subst h5; simpa [CountBySeverity, mapGet] using h
  · simpa [CountBySeverity, mapGet, Ne.symm h1, Ne.symm h2, Ne.symm h3,
      Ne.symm h4, Ne.symm h5] using h

theorem data_infix_strJoin (sep : String) (l : List String) (a : String)
    (h : a ∈ l) : a.data <:+: (strJoin sep l).data := by
  induction l with
  | nil => simp at h
  | cons x xs ih =>
    cases xs with
    | nil =>
      simp at h
      subst h
      exact List.infix_refl _
    | cons y ys =>
      rcases List.mem_cons.mp h with h | h
      · subst h
        show a.data <:+: (a ++ sep ++ strJoin sep (y :: ys)).data
        rw [String.data_append, String.data_append]
        exact ⟨[], sep.data ++ (strJoin sep (y :: ys)).data, by simp⟩
      · refine (ih h).trans ?_
        show (strJoin sep (y :: ys)).data <:+: (x ++ sep ++ strJoin sep (y :: ys)).data
        rw [String.data_append, String.data_append]
        exact (List.suffix_append _ _).isInfix

theorem strContains_append_right (a b sub : String) (h : strContains b sub) :
    strContains (a ++ b) sub := by
  refine h.trans ?_
  rw [show (a ++ b).data = a.data ++ b.data from String.data_append a b]
  exact (List.suffix_append _ _).isInfix

theorem strContains_append_left (a b sub : String) (h : strContains a sub) :
    strContains (a ++ b) sub := by
  refine h.trans ?_
  rw [show (a ++ b).data = a.data ++ b.data from String.data_append a b]
  exact (List.prefix_append _ _).isInfix

theorem contains_envViolation_key (env pattern : String) :
    strContains (envViolation env pattern) (envKey env) := by
  show (envKey env).data <:+:
    ("env var " ++ envKey env ++ " matches pattern " ++ pattern).data
  refine ⟨"env var ".data, " matches pattern ".data ++ pattern.data, ?_⟩
  simp [String.data_append]

theorem contains_envViolation_pattern (env pattern : String) :
    strContains (envViolation env pattern) pattern := by
  show pattern.data <:+:
    ("env var " ++ envKey env ++ " matches pattern " ++ pattern).data
  refine ⟨"env var ".data ++ (envKey env).data ++ " matches pattern ".data, [], ?_⟩
  simp [String.data_append]

/-- With a compile function that succeeds on every pattern, the env
evaluator's pattern loop collects, pattern-major, one violation per
matching (pattern, entry) pair. -/
theorem envCollect_total (matchFn : String → String → Bool)
    (envs : List String) (pats : List String) :
    envCollect (fun p => .ok (matchFn p)) envs pats
      = .ok (pats.flatMap fun pattern =>
          (envs.filter fun env => matchFn pattern env).map
            fun env => envViolation env pattern) := by
  induction pats with
  | nil => simp [envCollect]
  | cons pattern rest ih =>
    simp [envCollect, ih, Bind.bind, Except.bind, Pure.pure, Except.pure]

/-- If some deny pattern fails to compile, the env evaluator reports an
evaluator error (a message starting `invalid regex pattern`). -/
theorem envCollect_error (rc : RegexCompile) (envs : List String)
    (pats : List String) (pattern : String) (hmem : pattern ∈ pats)
    (e : String) (herr : rc pattern = .error e) :
    ∃ msg, envCollect rc envs pats = .error msg ∧
      strContains msg "invalid regex pattern" := by
  induction pats with
  | nil => simp at hmem
  | cons q rest ih =>
    rcases List.mem_cons.mp hmem with h | h
    · subst h
      refine ⟨"invalid regex pattern " ++ pattern ++ ": " ++ e, ?_, ?_⟩
      · simp [envCollect, herr]
      · exact strContains_append_left _ e _ (strContains_append_left _ ": " _
          (strContains_append_left "invalid regex pattern " pattern
            "invalid regex pattern" (by decide)))
    · match hq : rc q with
      | .error e' =>
        refine ⟨"invalid regex pattern " ++ q ++ ": " ++ e', ?_, ?_⟩
        · simp [envCollect, hq]
        · exact strContains_append_left _ e' _ (strContains_append_left _ ": " _
            (strContains_append_left "invalid regex pattern " q
              "invalid regex pattern" (by decide)))
      | .ok re =>
        obtain ⟨msg, hmsg, hcont⟩ := ih h
        refine ⟨msg, ?_, hcont⟩
        simp [envCollect, hq, hmsg, Bind.bind, Except.bind]

theorem countBySeverity_hasKey (results : List Result) (s : String)
    (h : s ∈ fiveSeverities) :
    mapHasKey (CountBySeverity results) s = true := by
  have base : mapHasKey
      [("critical", 0), ("high", 0), ("medium", 0), ("low", 0), ("info", 0)] s = true := by
    simp [fiveSeverities] at h
    rcases h with h | h | h | h | h <;> subst h <;> simp [mapHasKey]
  unfold CountBySeverity
  generalize [("critical", (0:Nat)), ("high", 0), ("medium", 0), ("low", 0), ("info", 0)] = m at base ⊢
  induction results generalizing m with
  | nil => simpa using base
  | cons r rest ih =>
    by_cases hp : r.Passed
    · simpa [hp] using ih _ base
    · simpa [hp] using ih _ (mapHasKey_mapIncr _ _ _ base)

/-! The claims. -/

/-- C1: for every Facts value and every Policy, `Engine.Evaluate` returns
a Result sequence of length equal to the number of the policy's rules,
whose i-th Result is the outcome of the i-th rule in declaration order;
the orchestrator never aborts mid-policy, so every rule yields exactly
one Result for every input. -/
theorem c1_evaluate_total_ordered (e : Engine) (f : Facts) (p : Policy) :
    (e.Evaluate f p).length = p.Rules.length ∧
    ∀ i : Nat, (e.Evaluate f p)[i]? = (p.Rules[i]?).map (e.evalRule f) := by
  refine ⟨?_, ?_⟩
  · simp [Engine.Evaluate_eq_map]
  · intro i
    simp [Engine.Evaluate_eq_map]

/-- C2: evaluating the same (Facts, Policy) pair twice yields identical
Result sequences.  `Engine.EvaluateAtTime` runs `Engine.Evaluate` when
the ambient wall clock reads `now`; the Results — every field of every
one of them — are independent of `now` and of anything else beyond the
two inputs, and carry no timestamp (the `Result` type has exactly the
six declared string/boolean fields). -/
theorem c2_evaluate_deterministic (e : Engine) (now₁ now₂ : Int) (f : Facts)
    (p : Policy) :
    e.EvaluateAtTime now₁ f p = e.EvaluateAtTime now₂ f p := rfl

/-- C3 (amended): the orchestrator overwrites every Result's id, name and
severity with the rule's own; the rule's description is copied onto the
evaluator's Result on the normal path, but the Results synthesized for an
unknown kind or an evaluator error carry an empty description, not the
rule's. -/
theorem c3_amended_result_labeling (e : Engine) (f : Facts) (rule : Rule) :
    (e.evalRule f rule).RuleID = rule.ID ∧
    (e.evalRule f rule).RuleName = rule.Name ∧
    (e.evalRule f rule).Severity = rule.Severity ∧
    (e.evaluators rule.Kind = none → (e.evalRule f rule).Description = "") ∧
    (∀ ev err, e.evaluators rule.Kind = some ev → ev f rule = .error err →
      (e.evalRule f rule).Description = "") ∧
    (∀ ev res, e.evaluators rule.Kind = some ev → ev f rule = .ok res →
      (e.evalRule f rule).Description = rule.Description ∧
      (e.evalRule f rule).Passed = res.Passed ∧
      (e.evalRule f rule).Message = res.Message) := by
  unfold Engine.evalRule
  rcases he : e.evaluators rule.Kind with _ | ev <;> simp [he]
  rcases hr : ev f rule with err | res <;> simp [hr]
  · rintro ev1 res rfl hok
    rw [hr] at hok
    simp at hok
  · constructor
    · rintro ev1 err rfl herr
      rw [hr] at herr
      simp at herr
    · rintro ev1 res1 rfl hok
      rw [hr] at hok
      simp at hok
      subst hok
      exact ⟨rfl, rfl⟩

/-- C3 (counterexample): on the one-rule policy whose rule has an
unregistered kind and the description `"has a description"`, the single
returned Result carries the empty description — not the rule's — although
the claim says the synthesized Result carries the rule's description. -/
theorem c3_counterexample :
    ((NewEngine rcErr).Evaluate {} policyUnknown).map (fun r => r.Description)
        = [""] ∧
    ruleUnknown.Description = "has a description" ∧
    ("" : String) ≠ "has a description" := by
  refine ⟨by rfl, rfl, by decide⟩

/-- C3 (witness): the amended theorem applied to the unknown-kind rule. -/
theorem c3_amended_result_labeling_witness :
    ((NewEngine rcErr).evalRule {} ruleUnknown).RuleID = "r1" ∧
    ((NewEngine rcErr).evalRule {} ruleUnknown).Description = "" := by
  have h := c3_amended_result_labeling (NewEngine rcErr) {} ruleUnknown
  exact ⟨h.1.trans (by rfl), h.2.2.2.1 (by rfl)⟩

/-- C4: a rule with an unregistered kind yields exactly one failing
Result whose message names the unknown kind; a rule whose evaluator
returns an error yields exactly one failing Result whose message embeds
the error (for example, an unparseable deny pattern makes the env
evaluator signal an `invalid regex pattern` error); in both cases every
other rule of the policy evaluates normally. -/
theorem c4_nonfatal_rule_errors (e : Engine) (f : Facts) (p : Policy)
    (i : Nat) (rule : Rule) (hrule : p.Rules[i]? = some rule) :
    (e.evaluators rule.Kind = none →
      (e.Evaluate f p)[i]? = some
        { RuleID := rule.ID, RuleName := rule.Name, Severity := rule.Severity
          Passed := false, Message := "unknown rule kind: " ++ rule.Kind
          Description := "" } ∧
      strContains ("unknown rule kind: " ++ rule.Kind) rule.Kind) ∧
    (∀ ev err, e.evaluators rule.Kind = some ev → ev f rule = .error err →
      (e.Evaluate f p)[i]? = some
        { RuleID := rule.ID, RuleName := rule.Name, Severity := rule.Severity
          Passed := false, Message := "evaluation error: " ++ err
          Description := "" } ∧
      strContains ("evaluation error: " ++ err) err) ∧
    (∀ j : Nat, j ≠ i → (e.Evaluate f p)[j]? = (p.Rules[j]?).map (e.evalRule f)) ∧
    (∀ rc (r' : Rule),
      (∃ pat ∈ r'.GetConfigStringSlice "deny_patterns", ∃ m, rc pat = .error m) →
      ∃ msg, EnvEvaluator.Evaluate rc f r' = .error msg ∧
        strContains msg "invalid regex pattern") := by
  refine ⟨?_, ?_, ?_, ?_⟩
  · intro h
    refine ⟨?_, ⟨"unknown rule kind: ".data, [], by simp [String.data_append]⟩⟩
    rw [Engine.Evaluate_eq_map]
    simp [hrule, Engine.evalRule, h]
  · intro ev err hev herr
    refine ⟨?_, ⟨"evaluation error: ".data, [], by simp [String.data_append]⟩⟩
    rw [Engine.Evaluate_eq_map]
    simp [hrule, Engine.evalRule, hev, herr]
  · intro j _
    simp [Engine.Evaluate_eq_map]
  · rintro rc r' ⟨pat, hmem, m, herr⟩
    obtain ⟨msg, hc, hcont⟩ := envCollect_error rc f.Env
      (r'.GetConfigStringSlice "deny_patterns") pat hmem m herr
    exact ⟨msg, by simp [EnvEvaluator.Evaluate, hc, Bind.bind, Except.bind], hcont⟩

/-- C4 (witness): the theorem applied to the two-rule policy — rule 0 has
an unknown kind and yields the synthesized failing Result, and rule 1
(whose deny pattern fails to compile) still evaluates, via the evaluator
error that the env evaluator reports. -/
theorem c4_nonfatal_rule_errors_witness :
    ((NewEngine rcErr).Evaluate {} policyTwo)[0]? = some
      { RuleID := "r1", RuleName := "unknown-kind rule", Severity := "high"
        Passed := false, Message := "unknown rule kind: totally-made-up"
        Description := "" } ∧
    ((NewEngine rcErr).Evaluate {} policyTwo)[1]?
      = (policyTwo.Rules[1]?).map ((NewEngine rcErr).evalRule {}) ∧
    (∃ msg, EnvEvaluator.Evaluate rcErr {} ruleBadEnv = .error msg ∧
      strContains msg "invalid regex pattern") := by
  have h := c4_nonfatal_rule_errors (NewEngine rcErr) {} policyTwo 0 ruleUnknown
    (by rfl)
  refine ⟨(h.1 (by rfl)).1, h.2.2.1 1 (by decide), ?_⟩
  exact h.2.2.2 rcErr ruleBadEnv ⟨"(", by decide, "regex unavailable", rfl⟩

/-- The per-rule validation loop succeeds exactly when every rule has an
id, a name, a kind, and an enumerated severity. -/
theorem validateRules_ok_iff (i : Nat) (rules : List Rule) :
    validateRules i rules = .ok () ↔
      ∀ r ∈ rules, r.ID ≠ "" ∧ r.Name ≠ "" ∧ r.Kind ≠ "" ∧
        validSeverity r.Severity = true := by
  induction rules generalizing i with
  | nil => simp [validateRules]
  | cons rule rest ih =>
    by_cases h1 : rule.ID = ""
    · simp [validateRules, h1]
    · by_cases h2 : rule.Name = ""
      · simp [validateRules, h1, h2]
      · by_cases h3 : rule.Kind = ""
        · simp [validateRules, h1, h2, h3]
        · by_cases h4 : validSeverity rule.Severity = true
          · simp [validateRules, h1, h2, h3, h4, ih]
          · simp [validateRules, h1, h2, h3, h4]

/-- C5 (amended): `LoadFromFile` validates the parsed document exactly
once, immediately after parsing, and never returns a document that fails
validation (validation checks: name present, at least one rule, and per
rule in declaration order an id, a name, a kind, and an enumerated
severity, with a rule- and field-identifying error).  `LoadDefault`,
however, returns the parsed embedded document as-is, without ever
validating it. -/
theorem c5_amended_load_validation :
    (∀ (parsed : Except String Policy) (q : Policy),
      LoadFromFile parsed = .ok q → parsed = .ok q ∧ q.Validate = .ok ()) ∧
    (∀ p : Policy, p.Validate = .ok () ↔
      (p.Name ≠ "" ∧ p.Rules ≠ [] ∧ ∀ r ∈ p.Rules,
        r.ID ≠ "" ∧ r.Name ≠ "" ∧ r.Kind ≠ "" ∧
        validSeverity r.Severity = true)) ∧
    (∀ parsed : Except String Policy, LoadDefault parsed = parsed) := by
  refine ⟨?_, ?_, fun _ => rfl⟩
  · intro parsed q h
    cases parsed with
    | error e => simp [LoadFromFile, Bind.bind, Except.bind] at h
    | ok p =>
      rcases hv : p.Validate with e | u
      · simp [LoadFromFile, Bind.bind, Except.bind, hv] at h
      · simp [LoadFromFile, Bind.bind, Except.bind, hv, Pure.pure, Except.pure] at h
        subst h
        cases u
        exact ⟨rfl, hv⟩
  · intro p
    by_cases hn : p.Name = ""
    · simp [Policy.Validate, hn]
    · by_cases hr : p.Rules.length = 0
      · simp [Policy.Validate, hn, hr, List.length_eq_zero.mp hr]
      · have : p.Rules ≠ [] := fun hnil => hr (by simp [hnil])
        simp [Policy.Validate, hn, hr, validateRules_ok_iff, this]

/-- C5 (counterexample): the `LoadDefault` loading path returns, for
evaluation, a parsed document that fails validation — so validation does
not run on every policy-loading path. -/
theorem c5_counterexample :
    LoadDefault (.ok badPolicy) = .ok badPolicy ∧
    badPolicy.Validate = .error "policy must have a name" := by
  exact ⟨rfl, by rfl⟩

/-- C5 (witness): the amended theorem applied to a well-formed document
loaded through `LoadFromFile` and to the unvalidated default path. -/
theorem c5_amended_load_validation_witness :
    ((Except.ok goodPolicy : Except String Policy) = .ok goodPolicy ∧
      goodPolicy.Validate = .ok ()) ∧
    LoadDefault (.ok badPolicy) = .ok badPolicy := by
  have h := c5_amended_load_validation
  exact ⟨h.1 (.ok goodPolicy) goodPolicy (by rfl), h.2.2 (.ok badPolicy)⟩

/-- The three-way case shape of the size evaluator over the truncated
whole-MB size. -/
theorem sizeEval_cases (f : Facts) (r : Rule) :
    SizeEvaluator.Evaluate f r = .ok (
      if 0 < r.GetConfigInt "max_mb" ∧ r.GetConfigInt "max_mb" < intSizeMB f then
        { Passed := false
          Message := "image size " ++ toString (intSizeMB f)
            ++ "MB exceeds maximum " ++ toString (r.GetConfigInt "max_mb") ++ "MB" }
      else if 0 < r.GetConfigInt "warn_mb" ∧ r.GetConfigInt "warn_mb" < intSizeMB f then
        { Passed := true
          Message := "image size " ++ toString (intSizeMB f)
            ++ "MB exceeds warning threshold "
            ++ toString (r.GetConfigInt "warn_mb") ++ "MB" }
      else
        { Passed := true
          Message := "image size: " ++ toString (intSizeMB f) ++ "MB" }) := by
  unfold SizeEvaluator.Evaluate
  dsimp only []
  split_ifs <;> rfl

/-- C6 (amended): the size evaluator compares and displays the image size
truncated (not rounded) to whole MB: it fails exactly when `max_mb > 0`
and the truncated MB value exceeds `max_mb` (so `max_mb = 0` disables the
check), with a message containing both numbers; when not failing but
`warn_mb > 0` and the truncated MB value exceeds `warn_mb`, it still
passes and the message communicates the warning. -/
theorem c6_amended_size_thresholds (f : Facts) (r : Rule) :
    ∃ res, SizeEvaluator.Evaluate f r = .ok res ∧
      (res.Passed = false ↔
        0 < r.GetConfigInt "max_mb" ∧ r.GetConfigInt "max_mb" < intSizeMB f) ∧
      (res.Passed = false →
        res.Message = "image size " ++ toString (intSizeMB f)
          ++ "MB exceeds maximum " ++ toString (r.GetConfigInt "max_mb") ++ "MB" ∧
        strContains res.Message (toString (intSizeMB f)) ∧
        strContains res.Message (toString (r.GetConfigInt "max_mb"))) ∧
      (res.Passed = true → 0 < r.GetConfigInt "warn_mb" →
        r.GetConfigInt "warn_mb" < intSizeMB f →
        res.Message = "image size " ++ toString (intSizeMB f)
          ++ "MB exceeds warning threshold "
          ++ toString (r.GetConfigInt "warn_mb") ++ "MB") ∧
      (r.GetConfigInt "max_mb" = 0 → res.Passed = true) := by
  by_cases hfail : 0 < r.GetConfigInt "max_mb" ∧ r.GetConfigInt "max_mb" < intSizeMB f
  · refine ⟨{ Passed := false,
              Message := "image size " ++ toString (intSizeMB f)
                ++ "MB exceeds maximum "
                ++ toString (r.GetConfigInt "max_mb") ++ "MB" }, ?_, ?_, ?_, ?_, ?_⟩
    · rw [sizeEval_cases, if_pos hfail]
    · exact ⟨fun _ => hfail, fun _ => rfl⟩
    · intro _
      refine ⟨rfl, ?_, ?_⟩
      · exact ⟨"image size ".data,
          ("MB exceeds maximum " ++ toString (r.GetConfigInt "max_mb") ++ "MB").data,
          by simp [String.data_append]⟩
      · exact ⟨("image size " ++ toString (intSizeMB f) ++ "MB exceeds maximum ").data,
          "MB".data, by simp [String.data_append]⟩
    · intro h
      simp at h
    · intro h0
      rw [h0] at hfail
      exact absurd hfail.1 (lt_irrefl 0)
  · by_cases hwarn : 0 < r.GetConfigInt "warn_mb" ∧ r.GetConfigInt "warn_mb" < intSizeMB f
    · refine ⟨{ Passed := true,
                Message := "image size " ++ toString (intSizeMB f)
                  ++ "MB exceeds warning threshold "
                  ++ toString (r.GetConfigInt "warn_mb") ++ "MB" }, ?_, ?_, ?_, ?_, ?_⟩
      · rw [sizeEval_cases, if_neg hfail, if_pos hwarn]
      · simp [hfail]
      · intro h
        simp at h
      · intro _ _ _
        rfl
      · intro _
        rfl
    · refine ⟨{ Passed := true,
                Message := "image size: " ++ toString (intSizeMB f) ++ "MB" },
        ?_, ?_, ?_, ?_, ?_⟩
      · rw [sizeEval_cases, if_neg hfail, if_neg hwarn]
      · simp [hfail]
      · intro h
        simp at h
      · intro _ hw1 hw2
        exact absurd ⟨hw1, hw2⟩ hwarn
      · intro _
        rfl

/-- C6 (counterexample): a 3145727-byte image is 2.99999904… MB; rounded
to whole MB that is 3 MB, which exceeds `max_mb = 2`, so under the claim
the rule must fail — but the evaluator truncates to 2 MB, passes, and
displays `2MB`. -/
theorem c6_counterexample :
    SizeEvaluator.Evaluate factsAlmost3MB ruleSize2
      = .ok { Passed := true, Message := "image size: 2MB" } ∧
    specRoundedMB factsAlmost3MB.Size = 3 ∧
    ruleSize2.GetConfigInt "max_mb" = 2 ∧
    (0 : Int) < 2 ∧ (2 : Int) < 3 := by
  refine ⟨by rfl, by decide, by rfl, by decide, by decide⟩

/-- C6 (witness): the amended theorem applied to a 2100-MB image against
`max_mb: 2048` — the rule fails and the message contains `2100` and
`2048`. -/
theorem c6_amended_size_thresholds_witness :
    ∃ res, SizeEvaluator.Evaluate factsBig ruleSize2048 = .ok res ∧
      res.Passed = false ∧
      strContains res.Message (toString (intSizeMB factsBig)) ∧
      strContains res.Message (toString (ruleSize2048.GetConfigInt "max_mb")) ∧
      toString (intSizeMB factsBig) = "2100" ∧
      toString (ruleSize2048.GetConfigInt "max_mb") = "2048" := by
  obtain ⟨res, heq, hiff, hfailmsg, _, _⟩ :=
    c6_amended_size_thresholds factsBig ruleSize2048
  have hf : res.Passed = false := hiff.mpr ⟨by decide, by decide⟩
  obtain ⟨_, hc1, hc2⟩ := hfailmsg hf
  exact ⟨res, heq, hf, hc1, hc2, by rfl, by rfl⟩

/-- C7 (amended): with deny patterns that all compile, the env evaluator
fails exactly when some pattern matches some raw env entry; the failure
message is built exclusively from the matching entries' keys (the text
before the first `=`) and the patterns — one `env var KEY matches pattern
PAT` fragment per match, pattern-major — so an entry's value never flows
into the message (though the message may textually coincide with a value
that equals a key or a pattern). -/
theorem c7_amended_env_pattern_scan (matchFn : String → String → Bool)
    (f : Facts) (r : Rule) :
    ∃ res, EnvEvaluator.Evaluate (fun p => .ok (matchFn p)) f r = .ok res ∧
      (res.Passed = false ↔ ∃ pat ∈ r.GetConfigStringSlice "deny_patterns",
        ∃ env ∈ f.Env, matchFn pat env = true) ∧
      (res.Passed = false →
        res.Message = "found suspicious env vars: " ++ strJoin "; "
          ((r.GetConfigStringSlice "deny_patterns").flatMap fun pattern =>
            (f.Env.filter fun env => matchFn pattern env).map
              fun env => envViolation env pattern) ∧
        ∀ pat ∈ r.GetConfigStringSlice "deny_patterns", ∀ env ∈ f.Env,
          matchFn pat env = true →
          strContains res.Message (envKey env) ∧ strContains res.Message pat) ∧
      (res.Passed = true →
        res.Message = "no suspicious env vars detected ("
          ++ toString f.Env.length ++ " total)") := by
  have hcollect := envCollect_total matchFn f.Env
    (r.GetConfigStringSlice "deny_patterns")
  by_cases hempty : ((r.GetConfigStringSlice "deny_patterns").flatMap fun pattern =>
      (f.Env.filter fun env => matchFn pattern env).map
        fun env => envViolation env pattern) = []
  · refine ⟨{ Passed := true,
              Message := "no suspicious env vars detected ("
                ++ toString f.Env.length ++ " total)" }, ?_, ?_, ?_, fun _ => rfl⟩
    · unfold EnvEvaluator.Evaluate
      dsimp only []
      rw [hcollect, hempty]
      rfl
    · simp only [List.flatMap_eq_nil_iff, List.map_eq_nil_iff,
        List.filter_eq_nil_iff] at hempty
      constructor
      · intro h
        exact absurd h (by simp)
      · rintro ⟨pat, hpat, env, henv, hmatch⟩
        exact absurd hmatch (by simpa using hempty pat hpat env henv)
    · intro h
      simp at h
  · have hlen : 0 < ((r.GetConfigStringSlice "deny_patterns").flatMap fun pattern =>
        (f.Env.filter fun env => matchFn pattern env).map
          fun env => envViolation env pattern).length :=
      List.length_pos.mpr hempty
    refine ⟨{ Passed := false,
              Message := "found suspicious env vars: " ++ strJoin "; "
                ((r.GetConfigStringSlice "deny_patterns").flatMap fun pattern =>
                  (f.Env.filter fun env => matchFn pattern env).map
                    fun env => envViolation env pattern) }, ?_, ?_, ?_, ?_⟩
    · unfold EnvEvaluator.Evaluate
      dsimp only []
      rw [hcollect]
      simp only [Bind.bind, Except.bind]
      rw [if_pos hlen]
      rfl
    · simp only [List.flatMap_eq_nil_iff, List.map_eq_nil_iff,
        List.filter_eq_nil_iff] at hempty
      push_neg at hempty
      obtain ⟨pat, hpat, env, henv, hmatch⟩ := hempty
      exact ⟨fun _ => ⟨pat, hpat, env, henv, by simpa using hmatch⟩, fun _ => rfl⟩
    · intro _
      refine ⟨rfl, ?_⟩
      intro pat hpat env henv hmatch
      have hmem : envViolation env pat ∈
          ((r.GetConfigStringSlice "deny_patterns").flatMap fun pattern =>
            (f.Env.filter fun env => matchFn pattern env).map
              fun env => envViolation env pattern) := by
        simp only [List.mem_flatMap, List.mem_map, List.mem_filter]
        exact ⟨pat, hpat, env, ⟨henv, hmatch⟩, rfl⟩
      have hjoin := data_infix_strJoin "; " _ _ hmem
      constructor
      · exact strContains_append_right "found suspicious env vars: " _ _
          ((contains_envViolation_key env pat).trans hjoin)
      · exact strContains_append_right "found suspicious env vars: " _ _
          ((contains_envViolation_pattern env pat).trans hjoin)
    · intro h
      simp at h

set_option maxRecDepth 8192 in
/-- C7 (counterexample): deny pattern `PASSWORD` against the env entry
`PASSWORD=PASSWORD` — the evaluation fails and the message, built from
the entry's key and the pattern, does contain the entry's value (the text
after the first `=`), because that value coincides with the key; so the
message does not "never contain the entry's value" as claimed. -/
theorem c7_counterexample :
    EnvEvaluator.Evaluate rcLit factsPP rulePP = .ok
      { Passed := false
        Message := "found suspicious env vars: env var PASSWORD matches pattern PASSWORD" } ∧
    envValue "PASSWORD=PASSWORD" = "PASSWORD" ∧
    strContains
      "found suspicious env vars: env var PASSWORD matches pattern PASSWORD"
      (envValue "PASSWORD=PASSWORD") := by
  refine ⟨by rfl, by rfl, by decide⟩

set_option maxRecDepth 8192 in
/-- C7 (witness): the amended theorem applied to `(?i)password` against
`DB_PASSWORD=hunter2` — the rule fails, the message contains the key
`DB_PASSWORD` and never the value `hunter2`. -/
theorem c7_amended_env_pattern_scan_witness :
    ∃ res, EnvEvaluator.Evaluate (fun p => .ok (ciPwdMatch p)) factsPwd rulePwd
        = .ok res ∧
      res.Passed = false ∧ strContains res.Message "DB_PASSWORD" ∧
      ¬ strContains res.Message "hunter2" := by
  obtain ⟨res, heq, hiff, hfailmsg, _⟩ :=
    c7_amended_env_pattern_scan ciPwdMatch factsPwd rulePwd
  have hf : res.Passed = false := hiff.mpr
    ⟨"(?i)password", by decide, "DB_PASSWORD=hunter2", by decide, by decide⟩
  obtain ⟨hmsg, hcont⟩ := hfailmsg hf
  have hkey := (hcont "(?i)password" (by decide) "DB_PASSWORD=hunter2"
    (by decide) (by decide)).1
  refine ⟨res, heq, hf, ?_, ?_⟩
  · rw [show envKey "DB_PASSWORD=hunter2" = "DB_PASSWORD" from rfl] at hkey
    exact hkey
  · rw [hmsg]
    decide

/-- C8 (amended): in the narrative rendering, when at least one Result
failed, the severity-breakdown section shows exactly the severities among
critical, high, medium and low whose failure count is non-zero, each with
its count; a non-zero `info` failure count never appears in the
breakdown. -/
theorem c8_amended_breakdown (r : Report) :
    r.severityBreakdown = "Failures by severity:\n"
      ++ strJoin "" (["critical", "high", "medium", "low"].filterMap fun s =>
          if 0 < mapGet r.BySeverity s then
            some (breakdownLabel s ++ toString (mapGet r.BySeverity s) ++ "\n")
          else none)
      ++ "\n" ∧
    ∀ s ∈ (["critical", "high", "medium", "low"] : List String),
      0 < mapGet r.BySeverity s →
      strContains r.severityBreakdown
        (breakdownLabel s ++ toString (mapGet r.BySeverity s)) := by
  have heq : r.severityBreakdown = "Failures by severity:\n"
      ++ strJoin "" (["critical", "high", "medium", "low"].filterMap fun s =>
          if 0 < mapGet r.BySeverity s then
            some (breakdownLabel s ++ toString (mapGet r.BySeverity s) ++ "\n")
          else none)
      ++ "\n" := by
    by_cases h1 : 0 < mapGet r.BySeverity "critical" <;>
    by_cases h2 : 0 < mapGet r.BySeverity "high" <;>
    by_cases h3 : 0 < mapGet r.BySeverity "medium" <;>
    by_cases h4 : 0 < mapGet r.BySeverity "low" <;>
      simp [Report.severityBreakdown, breakdownLabel, strJoin, h1, h2, h3, h4,
        String.append_assoc]
  refine ⟨heq, ?_⟩
  intro s hs hpos
  rw [heq]
  refine strContains_append_left _ "\n" _
    (strContains_append_right "Failures by severity:\n" _ _ ?_)
  have hline : (breakdownLabel s ++ toString (mapGet r.BySeverity s) ++ "\n") ∈
      (["critical", "high", "medium", "low"].filterMap fun q =>
        if 0 < mapGet r.BySeverity q then
          some (breakdownLabel q ++ toString (mapGet r.BySeverity q) ++ "\n")
        else none) :=
    List.mem_filterMap.mpr ⟨s, hs, by rw [if_pos hpos]⟩
  have hj := data_infix_strJoin "" _ _ hline
  exact List.IsInfix.trans
    (⟨[], "\n".data, by simp [String.data_append]⟩ :
      (breakdownLabel s ++ toString (mapGet r.BySeverity s)).data <:+:
        (breakdownLabel s ++ toString (mapGet r.BySeverity s) ++ "\n").data) hj

set_option maxRecDepth 8192 in
/-- C8 (counterexample): a report whose only Result is a failed
info-severity rule has `Failed = 1`, so the breakdown section is printed,
and the info failure count is 1 — yet the section shows nothing: the
severity with a non-zero failure count does not appear (the narrative
output nowhere mentions `Info`). -/
theorem c8_counterexample :
    infoFailReport.Failed = 1 ∧
    mapGet infoFailReport.BySeverity "info" = 1 ∧
    infoFailReport.severityBreakdown = "Failures by severity:\n\n" ∧
    ¬ strContains (Report.Text infoFailReport) "Info" := by
  refine ⟨by rfl, by rfl, by rfl, by decide⟩

/-- C8 (witness): the amended theorem applied to a report with one
critical failure — the breakdown shows exactly the critical line. -/
theorem c8_amended_breakdown_witness :
    critFailReport.severityBreakdown
      = "Failures by severity:\n  Critical: 1\n\n" ∧
    strContains critFailReport.severityBreakdown
      (breakdownLabel "critical"
        ++ toString (mapGet critFailReport.BySeverity "critical")) := by
  have h := c8_amended_breakdown critFailReport
  refine ⟨?_, h.2 "critical" (by decide) (by decide)⟩
  rw [h.1]
  rfl

/-- C9: for every Result sequence, the Report built from it has
`TotalRules` equal to the sequence length, `Passed + Failed = TotalRules`,
and a severity→failure-count map containing all five severities, each
mapped to the number of failed Results of that severity (each failed
Result contributes exactly one count to its severity; passed Results
contribute none). -/
theorem c9_report_aggregates (imageName : String) (f : Facts)
    (results : List Result) (p : Policy) (now : String) :
    (Report.New imageName f results p now).TotalRules = results.length ∧
    (Report.New imageName f results p now).Passed
      + (Report.New imageName f results p now).Failed = results.length ∧
    ∀ s ∈ fiveSeverities,
      mapHasKey (Report.New imageName f results p now).BySeverity s = true ∧
      mapGet (Report.New imageName f results p now).BySeverity s
        = results.countP (fun res => !res.Passed && res.Severity == s) := by
  refine ⟨rfl, ?_, ?_⟩
  · show results.countP (fun res => res.Passed)
      + results.countP (fun res => !res.Passed) = results.length
    induction results with
    | nil => rfl
    | cons x xs ih =>
      by_cases hx : x.Passed <;> simp [List.countP_cons, hx] <;> omega
  · intro s hs
    exact ⟨countBySeverity_hasKey results s hs, countBySeverity_get results s⟩

/-- C9 (witness): the theorem applied to the one-failing-info-Result
sequence. -/
theorem c9_report_aggregates_witness :
    (Report.New "img" {} [infoFailResult] {} "t").TotalRules = 1 ∧
    (Report.New "img" {} [infoFailResult] {} "t").Passed
      + (Report.New "img" {} [infoFailResult] {} "t").Failed = 1 ∧
    mapHasKey (Report.New "img" {} [infoFailResult] {} "t").BySeverity "info"
      = true ∧
    mapGet (Report.New "img" {} [infoFailResult] {} "t").BySeverity "info" = 1 := by
  have h := c9_report_aggregates "img" {} [infoFailResult] {} "t"
  have h5 := h.2.2 "info" (by decide)
  exact ⟨h.1, h.2.1, h5.1, h5.2.trans (by rfl)⟩

/-- C10: a config key that is present but holds a value of the wrong type
behaves exactly like an absent key, never an error: `GetConfigBool`
returns `false` for a non-boolean value, `GetConfigInt` returns `0` for a
non-numeric value, `GetConfigString` returns `""` for a non-string value,
and `GetConfigStringSlice` silently drops every non-string element of a
sequence; and an absent key yields exactly those same zero values. -/
theorem c10_config_wrong_type_defaults (r : Rule)
    (m : List (String × YamlVal)) (key : String) (v : YamlVal)
    (hm : r.Config = some m) (hv : lookupVal m key = some v) :
    ((∀ b, v ≠ .yBool b) → r.GetConfigBool key = false) ∧
    ((∀ n, v ≠ .yInt n) → (∀ n, v ≠ .yInt64 n) → (∀ ip ex, v ≠ .yFloat ip ex) →
      r.GetConfigInt key = 0) ∧
    ((∀ str, v ≠ .yStr str) → r.GetConfigString key = "") ∧
    (∀ xs, v = .yList xs → r.GetConfigStringSlice key
      = xs.filterMap fun item =>
          match item with
          | .yStr str => some str
          | _ => none) ∧
    (∀ (r2 : Rule) (m2 : List (String × YamlVal)), r2.Config = some m2 →
      lookupVal m2 key = none →
      r2.GetConfigBool key = false ∧ r2.GetConfigInt key = 0 ∧
      r2.GetConfigString key = "" ∧ r2.GetConfigStringSlice key = []) := by
  refine ⟨?_, ?_, ?_, ?_, ?_⟩
  · intro h
    cases v <;> simp only [Rule.GetConfigBool, hm, hv]
    exact absurd rfl (h _)
  · intro hi hi64 hf
    cases v <;> simp only [Rule.GetConfigInt, hm, hv] <;>
      first
      | exact absurd rfl (hi _)
      | exact absurd rfl (hi64 _)
      | exact absurd rfl (hf _ _)
  · intro h
    cases v <;> simp only [Rule.GetConfigString, hm, hv]
    exact absurd rfl (h _)
  · intro xs hxs
    subst hxs
    simp only [Rule.GetConfigStringSlice, hm, hv]
  · intro r2 m2 hm2 hnone
    refine ⟨?_, ?_, ?_, ?_⟩
    · simp only [Rule.GetConfigBool, hm2, hnone]
    · simp only [Rule.GetConfigInt, hm2, hnone]
    · simp only [Rule.GetConfigString, hm2, hnone]
    · simp only [Rule.GetConfigStringSlice, hm2, hnone]

/-- C10 (witness): the theorem applied to a config holding the string
`"true"` under a boolean key, the string `"12"` under an integer key, the
integer `3` under a string key, and a mixed sequence under a
string-sequence key. -/
theorem c10_config_wrong_type_defaults_witness :
    ruleMixedConfig.GetConfigBool "flag" = false ∧
    ruleMixedConfig.GetConfigInt "num" = 0 ∧
    ruleMixedConfig.GetConfigString "name" = "" ∧
    ruleMixedConfig.GetConfigStringSlice "list" = ["a", "b"] := by
  have hb := (c10_config_wrong_type_defaults ruleMixedConfig _ "flag"
    (.yStr "true") rfl (by rfl)).1
  have hi := (c10_config_wrong_type_defaults ruleMixedConfig _ "num"
    (.yStr "12") rfl (by rfl)).2.1
  have hs := (c10_config_wrong_type_defaults ruleMixedConfig _ "name"
    (.yInt 3) rfl (by rfl)).2.2.1
  have hl := (c10_config_wrong_type_defaults ruleMixedConfig _ "list"
    (.yList [.yStr "a", .yInt 1, .yStr "b"]) rfl (by rfl)).2.2.2.1
  refine ⟨hb ?_, hi ?_ ?_ ?_, hs ?_, (hl _ rfl).trans (by rfl)⟩
  · intro b h
    cases h
  · intro n h
    cases h
  · intro n h
    cases h
  · intro ip ex h
    cases h
  · intro str h
    cases h

end Boltguard
